import Mathlib

/-!
Verification of the Blender asset-pipeline geometry core
(`BlenderPipeline/scripts/*.py`): closest-point-on-segment skin
binding, procedural keyframe clips, vertex coloring, displacement and
mesh normalization.  Coordinates are embedded as exact rationals; the
scripts' float comparisons of Euclidean lengths are embedded as the
order-equivalent comparisons of squared lengths (squaring is strictly
monotone on nonnegative reals), and theorem statements that speak of
Euclidean distance use `Real.sqrt` of the rational squared distance.
-/

namespace RPG

/-- A 3D vector with exact rational coordinates (embeds `mathutils.Vector`). -/
structure Vec3 where
  x : ℚ
  y : ℚ
  z : ℚ
deriving DecidableEq, Repr

instance : Add Vec3 := ⟨fun u v => ⟨u.x + v.x, u.y + v.y, u.z + v.z⟩⟩
instance : Sub Vec3 := ⟨fun u v => ⟨u.x - v.x, u.y - v.y, u.z - v.z⟩⟩
instance : SMul ℚ Vec3 := ⟨fun t v => ⟨t * v.x, t * v.y, t * v.z⟩⟩

@[simp] theorem Vec3.add_x (u v : Vec3) : (u + v).x = u.x + v.x := rfl
@[simp] theorem Vec3.add_y (u v : Vec3) : (u + v).y = u.y + v.y := rfl
@[simp] theorem Vec3.add_z (u v : Vec3) : (u + v).z = u.z + v.z := rfl
@[simp] theorem Vec3.sub_x (u v : Vec3) : (u - v).x = u.x - v.x := rfl
@[simp] theorem Vec3.sub_y (u v : Vec3) : (u - v).y = u.y - v.y := rfl
@[simp] theorem Vec3.sub_z (u v : Vec3) : (u - v).z = u.z - v.z := rfl
@[simp] theorem Vec3.smul_x (t : ℚ) (v : Vec3) : (t • v).x = t * v.x := rfl
@[simp] theorem Vec3.smul_y (t : ℚ) (v : Vec3) : (t • v).y = t * v.y := rfl
@[simp] theorem Vec3.smul_z (t : ℚ) (v : Vec3) : (t • v).z = t * v.z := rfl

theorem Vec3.add_def (u v : Vec3) : u + v = ⟨u.x + v.x, u.y + v.y, u.z + v.z⟩ := rfl
theorem Vec3.sub_def (u v : Vec3) : u - v = ⟨u.x - v.x, u.y - v.y, u.z - v.z⟩ := rfl
theorem Vec3.smul_def (t : ℚ) (v : Vec3) : t • v = ⟨t * v.x, t * v.y, t * v.z⟩ := rfl

/-- Dot product (embeds `Vector.dot`). -/
def Vec3.dot (u v : Vec3) : ℚ := u.x * v.x + u.y * v.y + u.z * v.z

/-- Squared Euclidean distance between two points
(`(p - q).length` squared; comparisons of lengths in the scripts are
embedded as the order-equivalent comparisons of these squares). -/
def distSq (p q : Vec3) : ℚ := Vec3.dot (p - q) (p - q)

theorem distSq_nonneg (p q : Vec3) : 0 ≤ distSq p q := by
  simp only [distSq, Vec3.dot]
  have hx := mul_self_nonneg (p - q).x
  have hy := mul_self_nonneg (p - q).y
  have hz := mul_self_nonneg (p - q).z
  linarith

/-- The epsilon guard of `closest_point_on_segment` (`1e-8`). -/
def segEps : ℚ := 1 / 100000000

/-- Embeds `closest_point_on_segment(p, a, b)` from
`rig_and_export.py` / `generate_animations.py`: project `p` onto the
line through `a`,`b`, clamp the parameter to `[0,1]`; a segment with
squared length below `1e-8` is treated as the point `a`. -/
def closestPointOnSegment (p a b : Vec3) : Vec3 :=
  let ab := b - a
  let lengthSq := Vec3.dot ab ab
  if lengthSq < segEps then a
  else
    let t := max 0 (min 1 (Vec3.dot (p - a) ab / lengthSq))
    a + t • ab

/-- The unclamped projection parameter of `p` onto the line through
`a`,`b` (the value `(p - a).dot(ab) / length_sq` before clamping). -/
def projParam (p a b : Vec3) : ℚ :=
  Vec3.dot (p - a) (b - a) / Vec3.dot (b - a) (b - a)

theorem Vec3.eq_of_coords {u v : Vec3} (hx : u.x = v.x) (hy : u.y = v.y)
    (hz : u.z = v.z) : u = v := by
  cases u; cases v
  simp_all

theorem add_zero_smul_eq (a c : Vec3) : a + (0:ℚ) • c = a :=
  Vec3.eq_of_coords (by simp) (by simp) (by simp)

theorem add_one_smul_sub_eq (a b : Vec3) : a + (1:ℚ) • (b - a) = b :=
  Vec3.eq_of_coords (by simp) (by simp) (by simp)

theorem distSq_line_expand (p a b : Vec3) (s : ℚ) :
    distSq p (a + s • (b - a)) =
      Vec3.dot (p - a) (p - a) - 2 * s * Vec3.dot (p - a) (b - a)
        + s ^ 2 * Vec3.dot (b - a) (b - a) := by
  cases p; cases a; cases b
  simp only [distSq, Vec3.dot, Vec3.sub_x, Vec3.sub_y, Vec3.sub_z, Vec3.add_x,
    Vec3.add_y, Vec3.add_z, Vec3.smul_x, Vec3.smul_y, Vec3.smul_z]
  ring

/-- In the non-degenerate branch (`length_sq ≥ 1e-8`), the clamped
parameter minimizes the squared distance to the segment point over
`[0,1]`. -/
theorem clamped_param_min (p a b : Vec3) (hL : ¬ Vec3.dot (b - a) (b - a) < segEps)
    (t' : ℚ) (h0 : 0 ≤ t') (h1 : t' ≤ 1) :
    distSq p (a + (max 0 (min 1 (projParam p a b))) • (b - a)) ≤
      distSq p (a + t' • (b - a)) := by
  set L := Vec3.dot (b - a) (b - a) with hLdef
  set D := Vec3.dot (p - a) (b - a) with hDdef
  have hLpos : 0 < L := by
    have : segEps ≤ L := not_lt.mp hL
    have : (0:ℚ) < segEps := by norm_num [segEps]
    linarith [not_lt.mp hL]
  have hLne : L ≠ 0 := ne_of_gt hLpos
  rw [distSq_line_expand, distSq_line_expand, ← hLdef, ← hDdef]
  have hproj : projParam p a b = D / L := rfl
  rcases lt_trichotomy D 0 with hD | hD | hD
  · -- projection parameter negative: clamp to 0
    have ht : max 0 (min 1 (projParam p a b)) = 0 := by
      rw [hproj]
      have hneg : D / L < 0 := div_neg_of_neg_of_pos hD hLpos
      rw [min_eq_right (le_of_lt (lt_of_lt_of_le hneg (by norm_num)))]
      exact max_eq_left (le_of_lt hneg)
    rw [ht]
    nlinarith [sq_nonneg t', mul_nonneg h0 (le_of_lt hLpos)]
  · -- projection parameter zero: clamp is the projection itself
    have ht : max 0 (min 1 (projParam p a b)) = 0 := by
      rw [hproj, hD, zero_div]
      simp
    rw [ht]
    nlinarith [sq_nonneg t', hD]
  · rcases le_or_lt D L with hDL | hDL
    · -- parameter in [0,1]: clamp is the projection itself
      have hd0 : 0 ≤ D / L := le_of_lt (div_pos hD hLpos)
      have hd1 : D / L ≤ 1 := (div_le_one hLpos).mpr hDL
      have ht : max 0 (min 1 (projParam p a b)) = D / L := by
        rw [hproj, min_eq_right hd1, max_eq_right hd0]
      rw [ht]
      have key : L * ((Vec3.dot (p - a) (p - a) - 2 * t' * D + t' ^ 2 * L) -
          (Vec3.dot (p - a) (p - a) - 2 * (D / L) * D + (D / L) ^ 2 * L))
          = (t' * L - D) ^ 2 := by
        field_simp
        ring
      nlinarith [sq_nonneg (t' * L - D), hLpos]
    · -- projection parameter above 1: clamp to 1
      have ht : max 0 (min 1 (projParam p a b)) = 1 := by
        rw [hproj]
        have h1' : 1 < D / L := (one_lt_div hLpos).mpr hDL
        rw [min_eq_left (le_of_lt h1')]
        exact max_eq_right (by norm_num)
      rw [ht]
      nlinarith [mul_nonneg (sub_nonneg.mpr h1) (le_of_lt hLpos)]

theorem closestPoint_param_form (p a b : Vec3) :
    ∃ t : ℚ, 0 ≤ t ∧ t ≤ 1 ∧ closestPointOnSegment p a b = a + t • (b - a) := by
  by_cases h : Vec3.dot (b - a) (b - a) < segEps
  · refine ⟨0, le_refl 0, by norm_num, ?_⟩
    simp only [closestPointOnSegment, if_pos h]
    exact (add_zero_smul_eq a (b - a)).symm
  · refine ⟨max 0 (min 1 (projParam p a b)), le_max_left 0 _, ?_, ?_⟩
    · exact max_le (by norm_num) (min_le_left 1 _)
    · simp only [closestPointOnSegment, if_neg h]
      rfl

theorem closestPoint_clamp_low (p a b : Vec3)
    (hL : ¬ Vec3.dot (b - a) (b - a) < segEps) (h : projParam p a b < 0) :
    closestPointOnSegment p a b = a := by
  simp only [closestPointOnSegment, if_neg hL]
  have ht : max 0 (min 1 (Vec3.dot (p - a) (b - a) / Vec3.dot (b - a) (b - a))) = 0 := by
    have h' : Vec3.dot (p - a) (b - a) / Vec3.dot (b - a) (b - a) < 0 := h
    rw [min_eq_right (le_of_lt (lt_of_lt_of_le h' (by norm_num)))]
    exact max_eq_left (le_of_lt h')
  rw [ht]
  exact add_zero_smul_eq a (b - a)

theorem closestPoint_clamp_high (p a b : Vec3)
    (hL : ¬ Vec3.dot (b - a) (b - a) < segEps) (h : 1 < projParam p a b) :
    closestPointOnSegment p a b = b := by
  simp only [closestPointOnSegment, if_neg hL]
  have ht : max 0 (min 1 (Vec3.dot (p - a) (b - a) / Vec3.dot (b - a) (b - a))) = 1 := by
    have h' : 1 < Vec3.dot (p - a) (b - a) / Vec3.dot (b - a) (b - a) := h
    rw [min_eq_left (le_of_lt h')]
    exact max_eq_right (by norm_num)
  rw [ht]
  exact add_one_smul_sub_eq a b

/-- Euclidean distance between two embedded points, as a real number. -/
noncomputable def euclidDist (p q : Vec3) : ℝ := Real.sqrt ((distSq p q : ℚ) : ℝ)

theorem euclidDist_le_of_distSq_le {p q p' q' : Vec3}
    (h : distSq p q ≤ distSq p' q') : euclidDist p q ≤ euclidDist p' q' :=
  Real.sqrt_le_sqrt (by exact_mod_cast h)

theorem euclidDist_lt_of_distSq_lt {p q p' q' : Vec3}
    (h : distSq p q < distSq p' q') : euclidDist p q < euclidDist p' q' := by
  apply Real.sqrt_lt_sqrt
  · exact_mod_cast distSq_nonneg p q
  · exact_mod_cast h

/-- C2 (counterexample): the unconditional optimality part of the claim
fails in the degenerate branch.  For the segment from `(0,0,0)` to
`(0,0,1e-5)` (squared length `1e-10 < 1e-8`) and the point
`P = (0,0,1e-5)`, the function returns the head `A`, yet the segment
point at parameter `t' = 1` (namely `B = P` itself) is strictly closer,
so `|P−Q| ≤ |P−(A+t'(B−A))|` is violated at `t' = 1 ∈ [0,1]`. -/
theorem C2_counterexample :
    (0:ℚ) ≤ 1 ∧ (1:ℚ) ≤ 1 ∧
    ¬ euclidDist ⟨0,0,1/100000⟩
        (closestPointOnSegment ⟨0,0,1/100000⟩ ⟨0,0,0⟩ ⟨0,0,1/100000⟩) ≤
      euclidDist ⟨0,0,1/100000⟩
        (⟨0,0,0⟩ + (1:ℚ) • ((⟨0,0,1/100000⟩ : Vec3) - ⟨0,0,0⟩)) := by
  refine ⟨by norm_num, le_refl 1, not_le.mpr ?_⟩
  refine euclidDist_lt_of_distSq_lt ?_
  norm_num [closestPointOnSegment, distSq, segEps, Vec3.dot, min_def, max_def,
    Vec3.add_def, Vec3.sub_def, Vec3.smul_def]

/-- C2 (amended): `closest_point_on_segment` always returns a point of
the form `A + t·(B−A)` with `t ∈ [0,1]`; when the squared segment
length is below the epsilon `1e-8` the result is exactly the head `A`;
and in the non-degenerate case (squared length at least `1e-8`) the
result minimizes the Euclidean distance over all segment parameters
`t' ∈ [0,1]`, with a projection parameter outside `[0,1]` clamping
exactly to the respective endpoint. -/
theorem C2_closest_point_amended (p a b : Vec3) :
    (∃ t : ℚ, 0 ≤ t ∧ t ≤ 1 ∧ closestPointOnSegment p a b = a + t • (b - a)) ∧
    (Vec3.dot (b - a) (b - a) < segEps → closestPointOnSegment p a b = a) ∧
    (¬ Vec3.dot (b - a) (b - a) < segEps →
      (∀ t' : ℚ, 0 ≤ t' → t' ≤ 1 →
        euclidDist p (closestPointOnSegment p a b) ≤
          euclidDist p (a + t' • (b - a))) ∧
      (projParam p a b < 0 → closestPointOnSegment p a b = a) ∧
      (1 < projParam p a b → closestPointOnSegment p a b = b)) := by
  refine ⟨closestPoint_param_form p a b, ?_, ?_⟩
  · intro h
    simp only [closestPointOnSegment, if_pos h]
  · intro hL
    refine ⟨?_, closestPoint_clamp_low p a b hL, closestPoint_clamp_high p a b hL⟩
    intro t' h0 h1
    apply euclidDist_le_of_distSq_le
    have hcp : closestPointOnSegment p a b
        = a + (max 0 (min 1 (projParam p a b))) • (b - a) := by
      simp only [closestPointOnSegment, if_neg hL]
      rfl
    rw [hcp]
    exact clamped_param_min p a b hL t' h0 h1

/-- C2 witness: the amended theorem applied at concrete inputs — a
point past the tail clamps to the tail, a degenerate segment returns
its head, and the returned point beats the midpoint parameter. -/
theorem C2_witness :
    closestPointOnSegment ⟨0,0,2⟩ ⟨0,0,0⟩ ⟨0,0,1⟩ = ⟨0,0,1⟩ ∧
    closestPointOnSegment ⟨5,5,5⟩ ⟨1,1,1⟩ ⟨1,1,1 + 1/100000⟩ = ⟨1,1,1⟩ ∧
    euclidDist ⟨0,0,2⟩ (closestPointOnSegment ⟨0,0,2⟩ ⟨0,0,0⟩ ⟨0,0,1⟩) ≤
      euclidDist ⟨0,0,2⟩ (⟨0,0,0⟩ + (1/2 : ℚ) • ((⟨0,0,1⟩ : Vec3) - ⟨0,0,0⟩)) :=
  ⟨((C2_closest_point_amended ⟨0,0,2⟩ ⟨0,0,0⟩ ⟨0,0,1⟩).2.2
      (by norm_num [Vec3.dot, segEps, Vec3.sub_def])).2.2
      (by norm_num [projParam, Vec3.dot, Vec3.sub_def]),
   (C2_closest_point_amended ⟨5,5,5⟩ ⟨1,1,1⟩ ⟨1,1,1 + 1/100000⟩).2.1
      (by norm_num [Vec3.dot, segEps, Vec3.sub_def]),
   ((C2_closest_point_amended ⟨0,0,2⟩ ⟨0,0,0⟩ ⟨0,0,1⟩).2.2
      (by norm_num [Vec3.dot, segEps, Vec3.sub_def])).1
     (1/2) (by norm_num) (by norm_num)⟩

/-- A named bone segment in world space (the scripts apply
`matrix_world` to `head_local` / `tail_local`; positions here are the
resulting world-space points). -/
structure BoneSeg where
  name : String
  head : Vec3
  tail : Vec3
deriving DecidableEq, Repr

/-- Candidate bones of `assign_weights_by_bones`: every armature bone
except the designated `"Root"` utility bone (`rig_and_export.py` skips
`bone.name in ("Root",)`, `generate_animations.py` skips
`bone.name == "Root"` — the same predicate). -/
def boneData (bones : List BoneSeg) : List BoneSeg :=
  bones.filter (fun b => b.name ≠ "Root")

/-- The squared distance from `co` to the closest point of bone `b`'s
head–tail segment (the loop body computes
`dist = (co - pt).length` and compares with `<`; comparing squared
distances is order-equivalent). -/
def boneDistSq (co : Vec3) (b : BoneSeg) : ℚ :=
  distSq co (closestPointOnSegment co b.head b.tail)

/-- The Euclidean distance from `co` to the point of bone `b`'s segment
selected by `closest_point_on_segment`. -/
noncomputable def boneEuclid (co : Vec3) (b : BoneSeg) : ℝ :=
  euclidDist co (closestPointOnSegment co b.head b.tail)

/-- The `best_bone`/`best_dist` selection loop of
`assign_weights_by_bones`: starting from `best_bone = None,
best_dist = inf`, each candidate replaces the accumulator exactly when
its distance is strictly smaller (so the first minimizer wins ties). -/
def pickLoop (co : Vec3) : Option (String × ℚ) → List BoneSeg → Option (String × ℚ)
  | acc, [] => acc
  | acc, b :: rest =>
    match acc with
    | none => pickLoop co (some (b.name, boneDistSq co b)) rest
    | some (bn, bd) =>
      if boneDistSq co b < bd then pickLoop co (some (b.name, boneDistSq co b)) rest
      else pickLoop co (some (bn, bd)) rest

/-- The per-vertex assignment of `assign_weights_by_bones`: the winning
bone receives the vertex at weight `1.0` (`vg.add([v.index], 1.0,
'REPLACE')`), guarded by Python's truthiness test `if best_bone:`
(which also rejects an empty bone name). -/
def assignVertex (co : Vec3) (data : List BoneSeg) : Option (String × ℚ) :=
  match pickLoop co none data with
  | some (bn, _) => if bn = "" then none else some (bn, 1)
  | none => none

theorem pickLoop_some_spec (co : Vec3) (a : String × ℚ) (l : List BoneSeg) :
    ∃ r : String × ℚ, pickLoop co (some a) l = some r ∧ r.2 ≤ a.2 ∧
      (∀ b ∈ l, r.2 ≤ boneDistSq co b) ∧
      (r = a ∨ (r.2 < a.2 ∧ ∃ i : Fin l.length,
        r = ((l.get i).name, boneDistSq co (l.get i)) ∧
        ∀ j : Fin l.length, (j : ℕ) < (i : ℕ) → r.2 < boneDistSq co (l.get j))) := by
  induction l generalizing a with
  | nil => exact ⟨a, rfl, le_refl _, by simp, Or.inl rfl⟩
  | cons b rest ih =>
    by_cases hd : boneDistSq co b < a.2
    · have hstep : pickLoop co (some a) (b :: rest)
          = pickLoop co (some (b.name, boneDistSq co b)) rest := by
        obtain ⟨a1, a2⟩ := a
        simp only [pickLoop]
        rw [if_pos hd]
      obtain ⟨r, hr, hr2, hrall, hrcase⟩ := ih (b.name, boneDistSq co b)
      refine ⟨r, hstep ▸ hr, le_of_lt (lt_of_le_of_lt hr2 hd), ?_, Or.inr ⟨lt_of_le_of_lt hr2 hd, ?_⟩⟩
      · intro b' hb'
        rcases List.mem_cons.mp hb' with h | h
        · exact h ▸ hr2
        · exact hrall b' h
      · rcases hrcase with heq | ⟨hlt2, i', hi', hstrict⟩
        · refine ⟨⟨0, by simp⟩, heq, ?_⟩
          intro j hj
          exact absurd hj (by simp)
        · refine ⟨⟨(i' : ℕ) + 1, by simpa using Nat.succ_lt_succ i'.isLt⟩, hi', ?_⟩
          intro j hj
          rcases j with ⟨j, hjlt⟩
          cases j with
          | zero => exact hlt2
          | succ k =>
            exact hstrict ⟨k, Nat.lt_of_succ_lt_succ hjlt⟩
              (Nat.lt_of_succ_lt_succ hj)
    · have hstep : pickLoop co (some a) (b :: rest)
          = pickLoop co (some a) rest := by
        obtain ⟨a1, a2⟩ := a
        simp only [pickLoop]
        rw [if_neg hd]
      obtain ⟨r, hr, hr2, hrall, hrcase⟩ := ih a
      refine ⟨r, hstep ▸ hr, hr2, ?_, ?_⟩
      · intro b' hb'
        rcases List.mem_cons.mp hb' with h | h
        · exact h ▸ (le_trans hr2 (not_lt.mp hd))
        · exact hrall b' h
      · rcases hrcase with heq | ⟨hlt, i', hi', hstrict⟩
        · exact Or.inl heq
        · refine Or.inr ⟨hlt, ⟨(i' : ℕ) + 1, by simpa using Nat.succ_lt_succ i'.isLt⟩, hi', ?_⟩
          intro j hj
          rcases j with ⟨j, hjlt⟩
          cases j with
          | zero => exact lt_of_lt_of_le hlt (not_lt.mp hd)
          | succ k =>
            exact hstrict ⟨k, Nat.lt_of_succ_lt_succ hjlt⟩
              (Nat.lt_of_succ_lt_succ hj)

theorem pickLoop_none_spec (co : Vec3) (l : List BoneSeg) (hl : l ≠ []) :
    ∃ i : Fin l.length,
      pickLoop co none l = some ((l.get i).name, boneDistSq co (l.get i)) ∧
      (∀ j : Fin l.length, boneDistSq co (l.get i) ≤ boneDistSq co (l.get j)) ∧
      (∀ j : Fin l.length, (j : ℕ) < (i : ℕ) →
        boneDistSq co (l.get i) < boneDistSq co (l.get j)) := by
  match l, hl with
  | b :: rest, _ =>
    have hstep : pickLoop co none (b :: rest)
        = pickLoop co (some (b.name, boneDistSq co b)) rest := by
      simp only [pickLoop]
    obtain ⟨r, hr, hr2, hrall, hrcase⟩ := pickLoop_some_spec co (b.name, boneDistSq co b) rest
    rcases hrcase with heq | ⟨hlt, i', hi', hstrict⟩
    · refine ⟨⟨0, by simp⟩, ?_, ?_, ?_⟩
      · rw [hstep, hr, heq]
        rfl
      · intro j
        rcases j with ⟨j, hjlt⟩
        cases j with
        | zero => exact le_refl _
        | succ k =>
          have h := hrall (rest.get ⟨k, Nat.lt_of_succ_lt_succ hjlt⟩)
            (List.get_mem _ _ _)
          rw [heq] at h
          exact h
      · intro j hj
        exact absurd hj (by simp)
    · refine ⟨⟨(i' : ℕ) + 1, by simpa using Nat.succ_lt_succ i'.isLt⟩, ?_, ?_, ?_⟩
      · rw [hstep, hr, hi']
        rfl
      · intro j
        rcases j with ⟨j, hjlt⟩
        cases j with
        | zero =>
          show boneDistSq co (rest.get i') ≤ boneDistSq co b
          have h : r.2 ≤ boneDistSq co b := hr2
          rw [hi'] at h
          exact h
        | succ k =>
          have h := hrall (rest.get ⟨k, Nat.lt_of_succ_lt_succ hjlt⟩)
            (List.get_mem _ _ _)
          rw [hi'] at h
          exact h
      · intro j hj
        rcases j with ⟨j, hjlt⟩
        cases j with
        | zero =>
          show boneDistSq co (rest.get i') < boneDistSq co b
          have h : r.2 < boneDistSq co b := hlt
          rw [hi'] at h
          exact h
        | succ k =>
          have h := hstrict ⟨k, Nat.lt_of_succ_lt_succ hjlt⟩
            (Nat.lt_of_succ_lt_succ hj)
          rw [hi'] at h
          exact h

/-- The two-bone demonstration skeleton of the spec scenario, plus the
excluded `"Root"` utility bone: Bone A spans `(0,0,0)→(0,0,1)`, Bone B
spans `(0,0,1)→(0,0,2)`. -/
def demoBones : List BoneSeg :=
  [⟨"Root", ⟨0, 0, 0⟩, ⟨0, 0, 1/10⟩⟩,
   ⟨"BoneA", ⟨0, 0, 0⟩, ⟨0, 0, 1⟩⟩,
   ⟨"BoneB", ⟨0, 0, 1⟩, ⟨0, 0, 2⟩⟩]

/-- C1: for every vertex position and every non-empty candidate set
(the armature bones minus `"Root"`, whose names are nonempty), the
per-vertex loop of `assign_weights_by_bones` assigns exactly one bone
at weight exactly `1.0`, and the assigned bone minimizes the Euclidean
distance from the vertex to the bone's head–tail segment point chosen
by `closest_point_on_segment`, ties broken in favor of the first bone
in enumeration order (every strictly earlier bone is strictly
farther).  In particular, in the two-bone scenario the vertex
`(0.1, 0, 0.5)` binds to Bone A. -/
theorem C1_bone_assignment (bones : List BoneSeg) (co : Vec3)
    (hne : boneData bones ≠ [])
    (hnames : ∀ b ∈ boneData bones, b.name ≠ "") :
    (∃ i : Fin (boneData bones).length,
      assignVertex co (boneData bones) = some (((boneData bones).get i).name, 1) ∧
      (∀ j : Fin (boneData bones).length,
        boneEuclid co ((boneData bones).get i) ≤ boneEuclid co ((boneData bones).get j)) ∧
      (∀ j : Fin (boneData bones).length, (j : ℕ) < (i : ℕ) →
        boneEuclid co ((boneData bones).get i) < boneEuclid co ((boneData bones).get j))) ∧
    assignVertex ⟨1/10, 0, 1/2⟩ (boneData demoBones) = some ("BoneA", 1) := by
  constructor
  · obtain ⟨i, hpick, hmin, hstrict⟩ := pickLoop_none_spec co (boneData bones) hne
    refine ⟨i, ?_, ?_, ?_⟩
    · simp only [assignVertex, hpick]
      rw [if_neg (hnames _ (List.get_mem _ _ _))]
    · intro j
      exact euclidDist_le_of_distSq_le (hmin j)
    · intro j hj
      exact euclidDist_lt_of_distSq_lt (hstrict j hj)
  · have hdemo : boneData demoBones
        = [⟨"BoneA", ⟨0, 0, 0⟩, ⟨0, 0, 1⟩⟩, ⟨"BoneB", ⟨0, 0, 1⟩, ⟨0, 0, 2⟩⟩] := rfl
    have hdA : boneDistSq ⟨1/10, 0, 1/2⟩ ⟨"BoneA", ⟨0, 0, 0⟩, ⟨0, 0, 1⟩⟩ = 1/100 := by
      norm_num [boneDistSq, closestPointOnSegment, distSq, segEps, Vec3.dot,
        min_def, max_def, Vec3.add_def, Vec3.sub_def, Vec3.smul_def]
    have hdB : boneDistSq ⟨1/10, 0, 1/2⟩ ⟨"BoneB", ⟨0, 0, 1⟩, ⟨0, 0, 2⟩⟩ = 13/50 := by
      norm_num [boneDistSq, closestPointOnSegment, distSq, segEps, Vec3.dot,
        min_def, max_def, Vec3.add_def, Vec3.sub_def, Vec3.smul_def]
    rw [hdemo]
    simp only [assignVertex, pickLoop, hdA, hdB]
    norm_num
    intro h
    exact absurd h (by decide)

/-- C1 witness: the assignment theorem applied to the demonstration
skeleton, with both hypotheses discharged concretely. -/
theorem C1_witness :
    assignVertex ⟨1/10, 0, 1/2⟩ (boneData demoBones) = some ("BoneA", 1) :=
  (C1_bone_assignment demoBones ⟨0, 0, 0⟩ (by decide) (by decide)).2

/-- Vertex-group state of a mesh: an ordered list of named groups, each
holding (vertex index, weight) entries. -/
abbrev VertexGroups := List (String × List (Nat × ℚ))

/-- Embeds `vg.add([v.index], weight, 'REPLACE')` on the group named
`bn`: the first group with that name replaces an existing entry for the
vertex or appends a new one; other groups are untouched. -/
def addToGroup : VertexGroups → String → Nat → ℚ → VertexGroups
  | [], _, _, _ => []
  | (n, entries) :: rest, bn, i, w =>
    if n = bn then
      (n, if entries.any (fun e => e.1 = i)
          then entries.map (fun e => if e.1 = i then (i, w) else e)
          else entries ++ [(i, w)]) :: rest
    else (n, entries) :: addToGroup rest bn i w

/-- One iteration of the vertex loop of `assign_weights_by_bones`:
the winning bone's group receives the vertex, unassigned vertices leave
the state unchanged. -/
def weightStep (data : List BoneSeg) (gs : VertexGroups) (iv : ℕ × Vec3) : VertexGroups :=
  match assignVertex iv.2 data with
  | some (bn, w) => addToGroup gs bn iv.1 w
  | none => gs

/-- Embeds `assign_weights_by_bones(mesh_obj, arm_obj)` as an explicit
state transformer on the mesh's vertex groups: the prior group state is
discarded by `mesh_obj.vertex_groups.clear()`, one empty group per
non-Root bone is created in bone enumeration order, and every vertex is
added to its nearest bone's group at weight `1.0`. -/
def assignWeightsByBones (priorGroups : VertexGroups)
    (verts : List Vec3) (bones : List BoneSeg) : VertexGroups :=
  let data := boneData bones
  let _cleared : VertexGroups := []
  let groups := data.map (fun b => (b.name, ([] : List (Nat × ℚ))))
  (verts.enum).foldl (weightStep data) groups

theorem addToGroup_names (gs : VertexGroups) (bn : String) (i : Nat) (w : ℚ) :
    (addToGroup gs bn i w).map Prod.fst = gs.map Prod.fst := by
  induction gs with
  | nil => rfl
  | cons g rest ih =>
    obtain ⟨n, entries⟩ := g
    by_cases h : n = bn <;> simp [addToGroup, h, ih]

theorem foldWeights_names (data : List BoneSeg) (l : List (ℕ × Vec3)) (gs : VertexGroups) :
    (l.foldl (weightStep data) gs).map Prod.fst = gs.map Prod.fst := by
  induction l generalizing gs with
  | nil => rfl
  | cons iv rest ih =>
    rw [List.foldl_cons, ih]
    cases hav : assignVertex iv.2 data with
    | none => simp [weightStep, hav]
    | some p =>
      obtain ⟨bn, w⟩ := p
      simp [weightStep, hav, addToGroup_names]

/-- C10: `assign_weights_by_bones` clears every pre-existing vertex
group first, so its output state is independent of the prior
vertex-group state, and the resulting group names are exactly the
non-`"Root"` bone names in bone enumeration order. -/
theorem C10_prior_group_independence (prior1 prior2 : VertexGroups)
    (verts : List Vec3) (bones : List BoneSeg) :
    assignWeightsByBones prior1 verts bones = assignWeightsByBones prior2 verts bones ∧
    (assignWeightsByBones prior1 verts bones).map Prod.fst
      = (boneData bones).map BoneSeg.name := by
  refine ⟨rfl, ?_⟩
  unfold assignWeightsByBones
  rw [foldWeights_names, List.map_map]
  rfl

/-- Keyframe channel: `rotation_euler` (3-axis Euler) or `location`. -/
inductive Channel where
  | rot
  | loc
deriving DecidableEq, Repr

/-- One keyframe as emitted by `set_bone_rotation` / `set_bone_location`
in `generate_animations.py`.  Rotation values are recorded in degrees,
exactly as passed at the call sites; the script converts them to
radians by the fixed injective map `math.radians` before keying, so
equality of keyed values is unaffected.  Decimal float literals are
embedded as exact rationals (`mkRat`). -/
structure Keyframe where
  bone : String
  channel : Channel
  frame : Nat
  value : Vec3
deriving DecidableEq, Repr

/-- The value stored in an action for a (bone, channel, frame) triple:
`keyframe_insert` overwrites an existing key at the same frame, so the
last write wins. -/
def keyed : List Keyframe → String → Channel → Nat → Option Vec3
  | [], _, _, _ => none
  | k :: rest, b, c, f =>
    match keyed rest b c f with
    | some v => some v
    | none => if k.bone = b ∧ k.channel = c ∧ k.frame = f then some k.value else none

/-- The keyframes a clip actually records on a skeleton whose bone set
is given by the membership predicate `m`: `pose.bones.get(name)`
returning `None` silently skips the write. -/
def clipFor (m : String → Bool) (reqs : List Keyframe) : List Keyframe :=
  reqs.filter (fun k => m k.bone)

/-- Shorthand for one `set_bone_rotation(arm, bone, rx, ry, rz, frame)` call. -/
def rK (b : String) (x y z : ℚ) (f : Nat) : Keyframe := ⟨b, Channel.rot, f, ⟨x, y, z⟩⟩

/-- Shorthand for one `set_bone_location(arm, bone, x, y, z, frame)` call. -/
def lK (b : String) (x y z : ℚ) (f : Nat) : Keyframe := ⟨b, Channel.loc, f, ⟨x, y, z⟩⟩

/-- The keyframe requests of `create_idle`, in source order: rest pose
at the loop boundary frames 1 and 60, breathing peak at frame 30. -/
def idleRequests : List Keyframe :=
  [rK "Spine" 0 0 0 1, rK "Chest" 0 0 0 1, rK "Head" 0 0 0 1,
   rK "UpperArm_L" 0 0 0 1, rK "UpperArm_R" 0 0 0 1,
   rK "Spine" 0 0 0 60, rK "Chest" 0 0 0 60, rK "Head" 0 0 0 60,
   rK "UpperArm_L" 0 0 0 60, rK "UpperArm_R" 0 0 0 60,
   rK "Spine" 2 0 0 30, rK "Chest" (mkRat (-3) 2) 0 0 30, rK "Head" (-1) 0 0 30,
   rK "UpperArm_L" 0 0 1 30, rK "UpperArm_R" 0 0 (-1) 30]

/-- The keyframe requests of `create_walk`, in source order: left
contact at frames 1 and 30, left passing at 8, right contact at 15,
right passing at 23. -/
def walkRequests : List Keyframe :=
  [rK "UpperLeg_L" (-25) 0 0 1, rK "LowerLeg_L" 5 0 0 1, rK "Foot_L" 10 0 0 1,
   rK "UpperLeg_R" 20 0 0 1, rK "LowerLeg_R" 35 0 0 1, rK "Foot_R" (-5) 0 0 1,
   rK "UpperArm_L" 15 0 0 1, rK "LowerArm_L" (-10) 0 0 1,
   rK "UpperArm_R" (-15) 0 0 1, rK "LowerArm_R" (-15) 0 0 1,
   rK "Spine" 2 3 0 1, rK "Chest" 0 (-3) 0 1, lK "Hips" 0 0 (mkRat (-1) 50) 1,
   rK "UpperLeg_L" (-25) 0 0 30, rK "LowerLeg_L" 5 0 0 30, rK "Foot_L" 10 0 0 30,
   rK "UpperLeg_R" 20 0 0 30, rK "LowerLeg_R" 35 0 0 30, rK "Foot_R" (-5) 0 0 30,
   rK "UpperArm_L" 15 0 0 30, rK "LowerArm_L" (-10) 0 0 30,
   rK "UpperArm_R" (-15) 0 0 30, rK "LowerArm_R" (-15) 0 0 30,
   rK "Spine" 2 3 0 30, rK "Chest" 0 (-3) 0 30, lK "Hips" 0 0 (mkRat (-1) 50) 30,
   rK "UpperLeg_L" 0 0 0 8, rK "LowerLeg_L" 30 0 0 8, rK "Foot_L" (-15) 0 0 8,
   rK "UpperLeg_R" 0 0 0 8, rK "LowerLeg_R" 5 0 0 8, rK "Foot_R" 0 0 0 8,
   rK "UpperArm_L" 0 0 0 8, rK "LowerArm_L" (-5) 0 0 8,
   rK "UpperArm_R" 0 0 0 8, rK "LowerArm_R" (-5) 0 0 8,
   rK "Spine" 2 0 0 8, rK "Chest" 0 0 0 8, lK "Hips" 0 0 (mkRat 1 100) 8,
   rK "UpperLeg_L" 20 0 0 15, rK "LowerLeg_L" 35 0 0 15, rK "Foot_L" (-5) 0 0 15,
   rK "UpperLeg_R" (-25) 0 0 15, rK "LowerLeg_R" 5 0 0 15, rK "Foot_R" 10 0 0 15,
   rK "UpperArm_L" (-15) 0 0 15, rK "LowerArm_L" (-15) 0 0 15,
   rK "UpperArm_R" 15 0 0 15, rK "LowerArm_R" (-10) 0 0 15,
   rK "Spine" 2 (-3) 0 15, rK "Chest" 0 3 0 15, lK "Hips" 0 0 (mkRat (-1) 50) 15,
   rK "UpperLeg_L" 0 0 0 23, rK "LowerLeg_L" 5 0 0 23, rK "Foot_L" 0 0 0 23,
   rK "UpperLeg_R" 0 0 0 23, rK "LowerLeg_R" 30 0 0 23, rK "Foot_R" (-15) 0 0 23,
   rK "UpperArm_L" 0 0 0 23, rK "LowerArm_L" (-5) 0 0 23,
   rK "UpperArm_R" 0 0 0 23, rK "LowerArm_R" (-5) 0 0 23,
   rK "Spine" 2 0 0 23, rK "Chest" 0 0 0 23, lK "Hips" 0 0 (mkRat 1 100) 23]

/-- The keyframe requests of `create_run`, in source order: left
contact at frames 1 and 20, left passing at 5, right contact at 10,
right passing at 15. -/
def runRequests : List Keyframe :=
  [rK "UpperLeg_L" (-40) 0 0 1, rK "LowerLeg_L" 10 0 0 1, rK "Foot_L" 15 0 0 1,
   rK "UpperLeg_R" 30 0 0 1, rK "LowerLeg_R" 50 0 0 1, rK "Foot_R" (-10) 0 0 1,
   rK "UpperArm_L" 25 0 0 1, rK "LowerArm_L" (-20) 0 0 1,
   rK "UpperArm_R" (-30) 0 0 1, rK "LowerArm_R" (-25) 0 0 1,
   rK "Spine" 5 5 0 1, rK "Chest" (-3) (-5) 0 1, lK "Hips" 0 0 (mkRat (-3) 100) 1,
   rK "UpperLeg_L" (-40) 0 0 20, rK "LowerLeg_L" 10 0 0 20, rK "Foot_L" 15 0 0 20,
   rK "UpperLeg_R" 30 0 0 20, rK "LowerLeg_R" 50 0 0 20, rK "Foot_R" (-10) 0 0 20,
   rK "UpperArm_L" 25 0 0 20, rK "LowerArm_L" (-20) 0 0 20,
   rK "UpperArm_R" (-30) 0 0 20, rK "LowerArm_R" (-25) 0 0 20,
   rK "Spine" 5 5 0 20, rK "Chest" (-3) (-5) 0 20, lK "Hips" 0 0 (mkRat (-3) 100) 20,
   rK "UpperLeg_L" 5 0 0 5, rK "LowerLeg_L" 45 0 0 5, rK "Foot_L" (-20) 0 0 5,
   rK "UpperLeg_R" (-5) 0 0 5, rK "LowerLeg_R" 10 0 0 5, rK "Foot_R" 0 0 0 5,
   rK "UpperArm_L" 0 0 0 5, rK "LowerArm_L" (-10) 0 0 5,
   rK "UpperArm_R" 0 0 0 5, rK "LowerArm_R" (-10) 0 0 5,
   rK "Spine" 5 0 0 5, rK "Chest" (-3) 0 0 5, lK "Hips" 0 0 (mkRat 1 50) 5,
   rK "UpperLeg_L" 30 0 0 10, rK "LowerLeg_L" 50 0 0 10, rK "Foot_L" (-10) 0 0 10,
   rK "UpperLeg_R" (-40) 0 0 10, rK "LowerLeg_R" 10 0 0 10, rK "Foot_R" 15 0 0 10,
   rK "UpperArm_L" (-30) 0 0 10, rK "LowerArm_L" (-25) 0 0 10,
   rK "UpperArm_R" 25 0 0 10, rK "LowerArm_R" (-20) 0 0 10,
   rK "Spine" 5 (-5) 0 10, rK "Chest" (-3) 5 0 10, lK "Hips" 0 0 (mkRat (-3) 100) 10,
   rK "UpperLeg_L" (-5) 0 0 15, rK "LowerLeg_L" 10 0 0 15, rK "Foot_L" 0 0 0 15,
   rK "UpperLeg_R" 5 0 0 15, rK "LowerLeg_R" 45 0 0 15, rK "Foot_R" (-20) 0 0 15,
   rK "UpperArm_L" 0 0 0 15, rK "LowerArm_L" (-10) 0 0 15,
   rK "UpperArm_R" 0 0 0 15, rK "LowerArm_R" (-10) 0 0 15,
   rK "Spine" 5 0 0 15, rK "Chest" (-3) 0 0 15, lK "Hips" 0 0 (mkRat 1 50) 15]

/-- Loop-closure check: every (bone, channel) pair keyed in the list
stores the same value at frame `f1` as at frame `f2`. -/
def framesMatch (l : List Keyframe) (f1 f2 : Nat) : Prop :=
  ∀ k ∈ l, keyed l k.bone k.channel f1 = keyed l k.bone k.channel f2

instance framesMatchDec (l : List Keyframe) (f1 f2 : Nat) : Decidable (framesMatch l f1 f2) :=
  inferInstanceAs (Decidable (∀ k ∈ l, keyed l k.bone k.channel f1 = keyed l k.bone k.channel f2))

theorem keyed_none_of_absent (l : List Keyframe) (b : String) (c : Channel) (f : Nat)
    (h : ∀ k ∈ l, ¬(k.bone = b ∧ k.channel = c)) : keyed l b c f = none := by
  induction l with
  | nil => rfl
  | cons k rest ih =>
    have hrest := ih (fun k' hk' => h k' (List.mem_cons_of_mem _ hk'))
    simp only [keyed, hrest]
    rw [if_neg fun hc => h k (List.mem_cons_self _ _) ⟨hc.1, hc.2.1⟩]

theorem framesMatch_all (l : List Keyframe) (f1 f2 : Nat) (h : framesMatch l f1 f2)
    (b : String) (c : Channel) : keyed l b c f1 = keyed l b c f2 := by
  by_cases hb : ∃ k ∈ l, k.bone = b ∧ k.channel = c
  · obtain ⟨k, hk, h1, h2⟩ := hb
    have hkk := h k hk
    rw [h1, h2] at hkk
    exact hkk
  · rw [keyed_none_of_absent l b c f1 (fun k hk hkc => hb ⟨k, hk, hkc⟩),
      keyed_none_of_absent l b c f2 (fun k hk hkc => hb ⟨k, hk, hkc⟩)]

theorem keyed_filter (m : String → Bool) (l : List Keyframe) (b : String)
    (c : Channel) (f : Nat) :
    keyed (clipFor m l) b c f = if m b = true then keyed l b c f else none := by
  induction l with
  | nil => simp only [clipFor, List.filter_nil, keyed, ite_self]
  | cons k rest ih =>
    simp only [clipFor, List.filter_cons] at ih ⊢
    by_cases hk : m k.bone = true
    · rw [if_pos hk]
      by_cases hmb : m b = true
      · simp only [keyed, ih, if_pos hmb]
      · simp only [keyed, ih, if_neg hmb]
        rw [if_neg]
        rintro ⟨h1, -, -⟩
        rw [h1] at hk
        exact hmb hk
    · rw [if_neg hk, ih]
      by_cases hmb : m b = true
      · rw [if_pos hmb, if_pos hmb]
        simp only [keyed]
        cases hkr : keyed rest b c f with
        | some v => rfl
        | none =>
          rw [if_neg]
          rintro ⟨h1, -, -⟩
          rw [h1] at hk
          exact hk hmb
      · rw [if_neg hmb, if_neg hmb]

/-- C3: for every skeleton variant (bone-membership predicate `m`) and
every bone and channel, the Idle, Walk and Run clips key the same value
at their first frame as at their last frame (1/60, 1/30, 1/20
respectively); in particular the Walk rotation of `"UpperLeg_L"` equals
`(-25, 0, 0)` degrees at both frame 1 and frame 30. -/
theorem C3_loop_closure (m : String → Bool) (b : String) (c : Channel) :
    keyed (clipFor m idleRequests) b c 1 = keyed (clipFor m idleRequests) b c 60 ∧
    keyed (clipFor m walkRequests) b c 1 = keyed (clipFor m walkRequests) b c 30 ∧
    keyed (clipFor m runRequests) b c 1 = keyed (clipFor m runRequests) b c 20 ∧
    (m "UpperLeg_L" = true →
      keyed (clipFor m walkRequests) "UpperLeg_L" Channel.rot 1 = some ⟨-25, 0, 0⟩ ∧
      keyed (clipFor m walkRequests) "UpperLeg_L" Channel.rot 30 = some ⟨-25, 0, 0⟩) := by
  refine ⟨?_, ?_, ?_, ?_⟩
  · rw [keyed_filter, keyed_filter]
    by_cases hm : m b = true
    · rw [if_pos hm, if_pos hm]
      exact framesMatch_all idleRequests 1 60 (by decide) b c
    · rw [if_neg hm, if_neg hm]
  · rw [keyed_filter, keyed_filter]
    by_cases hm : m b = true
    · rw [if_pos hm, if_pos hm]
      exact framesMatch_all walkRequests 1 30 (by decide) b c
    · rw [if_neg hm, if_neg hm]
  · rw [keyed_filter, keyed_filter]
    by_cases hm : m b = true
    · rw [if_pos hm, if_pos hm]
      exact framesMatch_all runRequests 1 20 (by decide) b c
    · rw [if_neg hm, if_neg hm]
  · intro hm
    rw [keyed_filter, keyed_filter, if_pos hm, if_pos hm]
    exact ⟨by decide, by decide⟩

/-- C3 witness: the loop-closure theorem applied with the full skeleton
present, discharging the membership hypothesis of the concrete
`"UpperLeg_L"` conjunct. -/
theorem C3_witness :
    keyed (clipFor (fun _ => true) walkRequests) "UpperLeg_L" Channel.rot 1
      = some ⟨-25, 0, 0⟩ ∧
    keyed (clipFor (fun _ => true) walkRequests) "UpperLeg_L" Channel.rot 30
      = some ⟨-25, 0, 0⟩ :=
  (C3_loop_closure (fun _ => true) "Spine" Channel.rot).2.2.2 rfl

/-- The left/right bone-name swap of the mirror transformation: a
trailing `"_L"` becomes `"_R"` and vice versa; other names (the
center-line bones) are unchanged. -/
def mirrorName (s : String) : String :=
  match s.data.reverse with
  | 'L' :: '_' :: rest => String.mk (rest.reverse ++ ['_', 'R'])
  | 'R' :: '_' :: rest => String.mk (rest.reverse ++ ['_', 'L'])
  | _ => s

/-- The value part of the mirror transformation: the lateral (second
Euler axis) rotation component of the center-line bones `"Spine"` and
`"Chest"` is negated; all other values carry over unchanged. -/
def lateralFlip (b : String) (c : Channel) (v : Vec3) : Vec3 :=
  if (b = "Spine" ∨ b = "Chest") ∧ c = Channel.rot then ⟨v.x, -v.y, v.z⟩ else v

/-- Keypose at frame `fR` is the mirror image of the keypose at frame
`fL`: for every keyed (bone, channel), the mirrored bone's value at
`fR` equals the mirror-transformed value of the original bone at `fL`. -/
def mirrorPoseMatches (l : List Keyframe) (fL fR : Nat) : Prop :=
  ∀ k ∈ l, keyed l (mirrorName k.bone) k.channel fR
    = (keyed l k.bone k.channel fL).map (lateralFlip k.bone k.channel)

instance mirrorPoseMatchesDec (l : List Keyframe) (fL fR : Nat) :
    Decidable (mirrorPoseMatches l fL fR) :=
  inferInstanceAs (Decidable (∀ k ∈ l, keyed l (mirrorName k.bone) k.channel fR
    = (keyed l k.bone k.channel fL).map (lateralFlip k.bone k.channel)))

/-- C4: in the Walk clip the right-contact keypose (frame 15) is the
mirror of the left-contact keypose (frame 1) and the right-passing
keypose (frame 23) is the mirror of the left-passing keypose (frame 8);
in the Run clip likewise frames 10/1 and 15/5 — mirroring swaps the
values of `_L`/`_R` bone pairs and negates the lateral rotation
component of the center-line bones Spine and Chest. -/
theorem C4_mirror_symmetry :
    mirrorPoseMatches walkRequests 1 15 ∧ mirrorPoseMatches walkRequests 8 23 ∧
    mirrorPoseMatches runRequests 1 10 ∧ mirrorPoseMatches runRequests 5 15 :=
  ⟨by decide, by decide, by decide, by decide⟩

/-- An RGBA color with each channel an exact rational. -/
structure Color where
  r : ℚ
  g : ℚ
  b : ℚ
  a : ℚ
deriving DecidableEq, Repr

theorem Color.eq_of_channels {c d : Color} (hr : c.r = d.r) (hg : c.g = d.g)
    (hb : c.b = d.b) (ha : c.a = d.a) : c = d := by
  cases c; cases d
  simp_all

/-- A mesh polygon as read by the coloring loops: its face normal and
the corner (loop) indices it owns. -/
structure Polygon where
  normal : Vec3
  loops : List Nat
deriving DecidableEq, Repr

/-- The per-corner color computed inside `set_vertex_colors_with_moss`
(`generate_rocks.py`): above the threshold, each RGB channel is blended
with factor `(normal.z - threshold) / (1.0 - threshold)` and alpha is
written as `1.0`; otherwise the base color is written unmodified. -/
def mossCornerColor (base moss : Color) (threshold nz : ℚ) : Color :=
  if nz > threshold then
    let blend := (nz - threshold) / (1 - threshold)
    ⟨base.r * (1 - blend) + moss.r * blend,
     base.g * (1 - blend) + moss.g * blend,
     base.b * (1 - blend) + moss.b * blend,
     1⟩
  else base

/-- The sequence of corner-color writes performed by
`set_vertex_colors_with_moss`: for every polygon, every loop index of
that polygon receives the color determined by the polygon's face
normal. -/
def setVertexColorsWithMoss (polys : List Polygon) (base moss : Color)
    (threshold : ℚ) : List (Nat × Color) :=
  polys.flatMap
    (fun p => p.loops.map (fun li => (li, mossCornerColor base moss threshold p.normal.z)))

/-- The color layer after a list of writes: the last write to a corner
wins, corners never written keep their initial value. -/
def writeColors (writes : List (Nat × Color)) (init : Nat → Option Color) :
    Nat → Option Color :=
  fun i =>
    match writes.foldl (fun acc w => if w.1 = i then some w.2 else acc) none with
    | some c => some c
    | none => init i

/-- The spec's linear blend between two colors with factor `t`. -/
def specBlend (c1 c2 : Color) (t : ℚ) : Color :=
  ⟨c1.r * (1 - t) + c2.r * t, c1.g * (1 - t) + c2.g * t,
   c1.b * (1 - t) + c2.b * t, c1.a * (1 - t) + c2.a * t⟩

/-- Clamp to the unit interval, as the spec describes. -/
def clamp01 (t : ℚ) : ℚ := max 0 (min 1 t)

theorem foldWrites_no_write (writes : List (Nat × Color)) (i : Nat)
    (acc : Option Color) (h : ∀ w ∈ writes, w.1 ≠ i) :
    writes.foldl (fun acc w => if w.1 = i then some w.2 else acc) acc = acc := by
  induction writes generalizing acc with
  | nil => rfl
  | cons w rest ih =>
    simp only [List.foldl_cons]
    rw [if_neg (h w (List.mem_cons_self _ _))]
    exact ih acc (fun w' hw' => h w' (List.mem_cons_of_mem _ hw'))

theorem foldWrites_all_eq (writes : List (Nat × Color)) (i : Nat) (col : Color)
    (acc : Option Color) (hall : ∀ w ∈ writes, w.1 = i → w.2 = col)
    (hmem : ∃ w ∈ writes, w.1 = i) :
    writes.foldl (fun acc w => if w.1 = i then some w.2 else acc) acc = some col := by
  induction writes generalizing acc with
  | nil =>
    obtain ⟨w, hw, _⟩ := hmem
    exact absurd hw (List.not_mem_nil w)
  | cons w rest ih =>
    simp only [List.foldl_cons]
    by_cases hw : w.1 = i
    · rw [if_pos hw, hall w (List.mem_cons_self _ _) hw]
      by_cases hr : ∃ w' ∈ rest, w'.1 = i
      · exact ih _ (fun w' hw' => hall w' (List.mem_cons_of_mem _ hw')) hr
      · rw [foldWrites_no_write rest i _ (fun w' hw' hwi => hr ⟨w', hw', hwi⟩)]
    · rw [if_neg hw]
      obtain ⟨w0, hw0, hw0i⟩ := hmem
      rcases List.mem_cons.mp hw0 with h | h
      · exact absurd (h ▸ hw0i) hw
      · exact ih _ (fun w' hw' => hall w' (List.mem_cons_of_mem _ hw')) ⟨w0, h, hw0i⟩

theorem writeColors_eq (writes : List (Nat × Color)) (init : Nat → Option Color)
    (i : Nat) (col : Color) (hall : ∀ w ∈ writes, w.1 = i → w.2 = col)
    (hmem : ∃ w ∈ writes, w.1 = i) :
    writeColors writes init i = some col := by
  unfold writeColors
  rw [foldWrites_all_eq writes i col none hall hmem]

/-- C5: for a polygon of a colored mesh (its corners owned by no other
polygon, its face normal a unit vector) and threshold `T < 1`, alpha-1
base and moss colors: when the normal's vertical component exceeds `T`
every corner of the polygon receives exactly the linear blend of base
and moss with factor `(n.z - T)/(1 - T)`, which lies in `[0,1]` (its
own clamp), and otherwise every corner receives the base color
unmodified. -/
theorem C5_moss_blend (polys : List Polygon) (base moss : Color) (T : ℚ)
    (init : Nat → Option Color)
    (hT : T < 1) (hba : base.a = 1) (hma : moss.a = 1)
    (p : Polygon) (hp : p ∈ polys) (li : Nat) (hli : li ∈ p.loops)
    (huniq : ∀ q ∈ polys, li ∈ q.loops → q = p)
    (hunit : Vec3.dot p.normal p.normal = 1) :
    (p.normal.z > T →
      writeColors (setVertexColorsWithMoss polys base moss T) init li
        = some (specBlend base moss ((p.normal.z - T) / (1 - T))) ∧
      0 ≤ (p.normal.z - T) / (1 - T) ∧ (p.normal.z - T) / (1 - T) ≤ 1 ∧
      clamp01 ((p.normal.z - T) / (1 - T)) = (p.normal.z - T) / (1 - T)) ∧
    (¬ p.normal.z > T →
      writeColors (setVertexColorsWithMoss polys base moss T) init li = some base) := by
  have hwmem : (li, mossCornerColor base moss T p.normal.z)
      ∈ setVertexColorsWithMoss polys base moss T :=
    List.mem_flatMap.mpr ⟨p, hp, List.mem_map.mpr ⟨li, hli, rfl⟩⟩
  have hwall : ∀ w ∈ setVertexColorsWithMoss polys base moss T,
      w.1 = li → w.2 = mossCornerColor base moss T p.normal.z := by
    intro w hw hwi
    obtain ⟨q, hq, hwq⟩ := List.mem_flatMap.mp hw
    obtain ⟨li', hli', hw'⟩ := List.mem_map.mp hwq
    have hli'' : li' = li := by rw [← hw'] at hwi; exact hwi
    have hqp : q = p := huniq q hq (hli'' ▸ hli')
    rw [← hw', hqp]
  have hwc : writeColors (setVertexColorsWithMoss polys base moss T) init li
      = some (mossCornerColor base moss T p.normal.z) :=
    writeColors_eq _ init li _ hwall ⟨_, hwmem, rfl⟩
  have h1T : 0 < 1 - T := by linarith
  constructor
  · intro hz
    have hz1 : p.normal.z ≤ 1 := by
      have hxx := mul_self_nonneg p.normal.x
      have hyy := mul_self_nonneg p.normal.y
      have hdot : p.normal.x * p.normal.x + p.normal.y * p.normal.y
          + p.normal.z * p.normal.z = 1 := hunit
      nlinarith [sq_nonneg (p.normal.z - 1)]
    have hb0 : 0 ≤ (p.normal.z - T) / (1 - T) :=
      div_nonneg (by linarith) (le_of_lt h1T)
    have hb1 : (p.normal.z - T) / (1 - T) ≤ 1 :=
      (div_le_one h1T).mpr (by linarith)
    have hcc : mossCornerColor base moss T p.normal.z
        = specBlend base moss ((p.normal.z - T) / (1 - T)) := by
      unfold mossCornerColor specBlend
      rw [if_pos hz]
      exact Color.eq_of_channels rfl rfl rfl (by rw [hba, hma]; ring)
    refine ⟨by rw [hwc, hcc], hb0, hb1, ?_⟩
    unfold clamp01
    rw [min_eq_right hb1, max_eq_right hb0]
  · intro hz
    have hcc : mossCornerColor base moss T p.normal.z = base := by
      simp only [mossCornerColor, if_neg hz]
    rw [hwc, hcc]

/-- C5 witness: a single upward-facing polygon with threshold `1/2`
receives the full moss blend at its corner. -/
theorem C5_witness :
    writeColors (setVertexColorsWithMoss [⟨⟨0, 0, 1⟩, [0]⟩] ⟨1, 0, 0, 1⟩ ⟨0, 1, 0, 1⟩ (1/2))
        (fun _ => none) 0
      = some (specBlend ⟨1, 0, 0, 1⟩ ⟨0, 1, 0, 1⟩
          (((⟨⟨0, 0, 1⟩, [0]⟩ : Polygon).normal.z - 1/2) / (1 - 1/2))) :=
  ((C5_moss_blend [⟨⟨0, 0, 1⟩, [0]⟩] ⟨1, 0, 0, 1⟩ ⟨0, 1, 0, 1⟩ (1/2) (fun _ => none)
      (by norm_num) rfl rfl ⟨⟨0, 0, 1⟩, [0]⟩ (List.mem_singleton.mpr rfl) 0
      (by simp)
      (fun q hq _ => List.mem_singleton.mp hq)
      (by norm_num [Vec3.dot])).1 (by norm_num)).1

/-- A rocks-variant mesh as read by `displace_vertices`
(`generate_rocks.py`): vertex (position, normal) pairs plus the
polygons the function never touches. -/
structure RockMesh where
  verts : List (Vec3 × Vec3)
  polys : List Polygon

/-- A trees-variant mesh as read by `displace_vertices`
(`generate_trees.py`): vertex positions plus untouched polygons. -/
structure TreeMesh where
  verts : List Vec3
  polys : List Polygon

/-- Embeds the rocks `displace_vertices(obj, amount, seed_offset)`.
Modelled from the spec: the Python stdlib generator
`random.Random(seed_offset)` is deterministic — its successive
`uniform(-amount, amount)` calls form a sequence depending only on the
seed, abstracted here as `draw` (draw index, lower bound, upper bound);
invocations with the same `seed_offset` share the same `draw`.  Each
vertex is displaced along its normal by one draw. -/
def displaceVerticesRocks (draw : ℕ → ℚ → ℚ → ℚ) (m : RockMesh) (amount : ℚ) :
    List Vec3 :=
  (m.verts.enum).map (fun iv => iv.2.1 + (draw iv.1 (-amount) amount) • iv.2.2)

/-- Embeds the trees `displace_vertices(obj, amount, seed_offset)`:
three successive draws per vertex, added to the X, Y, Z coordinates.
The `draw` abstraction is as in `displaceVerticesRocks`. -/
def displaceVerticesTrees (draw : ℕ → ℚ → ℚ → ℚ) (m : TreeMesh) (amount : ℚ) :
    List Vec3 :=
  (m.verts.enum).map (fun iv =>
    ⟨iv.2.x + draw (3 * iv.1) (-amount) amount,
     iv.2.y + draw (3 * iv.1 + 1) (-amount) amount,
     iv.2.z + draw (3 * iv.1 + 2) (-amount) amount⟩)

/-- C6: both `displace_vertices` variants are deterministic — with the
same seed (hence the same draw sequence), the same amount, and meshes
with identical vertex data, the outputs are identical — and every
vertex is displaced by scalars from `[-amount, amount]`: along the
normal in the rocks variant, independently per axis in the trees
variant. -/
theorem C6_displacement_determinism (draw : ℕ → ℚ → ℚ → ℚ) (amount : ℚ)
    (hdraw : ∀ i lo hi, lo ≤ hi → lo ≤ draw i lo hi ∧ draw i lo hi ≤ hi)
    (ham : 0 ≤ amount) :
    (∀ m1 m2 : RockMesh, m1.verts = m2.verts →
      displaceVerticesRocks draw m1 amount = displaceVerticesRocks draw m2 amount) ∧
    (∀ m1 m2 : TreeMesh, m1.verts = m2.verts →
      displaceVerticesTrees draw m1 amount = displaceVerticesTrees draw m2 amount) ∧
    (∀ (m : RockMesh) (i : Fin m.verts.length),
      ∃ d : ℚ, -amount ≤ d ∧ d ≤ amount ∧
        (displaceVerticesRocks draw m amount).get? i
          = some ((m.verts.get i).1 + d • (m.verts.get i).2)) ∧
    (∀ (m : TreeMesh) (i : Fin m.verts.length),
      ∃ dx dy dz : ℚ,
        -amount ≤ dx ∧ dx ≤ amount ∧ -amount ≤ dy ∧ dy ≤ amount ∧
        -amount ≤ dz ∧ dz ≤ amount ∧
        (displaceVerticesTrees draw m amount).get? i
          = some ⟨(m.verts.get i).x + dx, (m.verts.get i).y + dy,
              (m.verts.get i).z + dz⟩) := by
  have hlohi : -amount ≤ amount := by linarith
  refine ⟨?_, ?_, ?_, ?_⟩
  · intro m1 m2 h
    unfold displaceVerticesRocks
    rw [h]
  · intro m1 m2 h
    unfold displaceVerticesTrees
    rw [h]
  · intro m i
    obtain ⟨h1, h2⟩ := hdraw i (-amount) amount hlohi
    refine ⟨draw i (-amount) amount, h1, h2, ?_⟩
    unfold displaceVerticesRocks
    rw [List.get?_map, List.get?_enum, List.get?_eq_get i.isLt]
    rfl
  · intro m i
    obtain ⟨hx1, hx2⟩ := hdraw (3 * i) (-amount) amount hlohi
    obtain ⟨hy1, hy2⟩ := hdraw (3 * i + 1) (-amount) amount hlohi
    obtain ⟨hz1, hz2⟩ := hdraw (3 * i + 2) (-amount) amount hlohi
    refine ⟨_, _, _, hx1, hx2, hy1, hy2, hz1, hz2, ?_⟩
    unfold displaceVerticesTrees
    rw [List.get?_map, List.get?_enum, List.get?_eq_get i.isLt]
    rfl

/-- C6 witness: the determinism theorem applied with a concrete draw
sequence (constantly the lower bound) to two meshes that share their
vertex data but differ in polygons. -/
theorem C6_witness :
    displaceVerticesRocks (fun _ lo _ => lo) ⟨[(⟨0, 0, 0⟩, ⟨0, 0, 1⟩)], []⟩ 1
      = displaceVerticesRocks (fun _ lo _ => lo)
          ⟨[(⟨0, 0, 0⟩, ⟨0, 0, 1⟩)], [⟨⟨1, 0, 0⟩, [0]⟩]⟩ 1 :=
  (C6_displacement_determinism (fun _ lo _ => lo) 1
    (fun _ lo hi h => ⟨le_refl lo, h⟩) (by norm_num)).1 _ _ rfl

/-- Embeds the `cottage_color(pos)` cascade of `generate_buildings.py`
(the closure captures `offset_x`; `math.sin` is the external library
function, abstracted as `sinq`).  The first matching predicate wins:
chimney, roof, foundation, door, window frame, walls, fallback. -/
def cottageColor (sinq : ℚ → ℚ) (offsetX : ℚ) (pos : Vec3) : Color :=
  let lx := pos.x - offsetX
  if lx > 90/100 ∧ pos.y > 1 ∧ pos.z > 2 then ⟨45/100, 42/100, 40/100, 1⟩
  else if pos.z > 185/100 then ⟨32/100, 22/100, 12/100, 1⟩
  else if pos.z < 32/100 then ⟨50/100, 48/100, 45/100, 1⟩
  else if |lx| < 32/100 ∧ |pos.y| < 10/100 ∧ pos.z < 135/100 then
    ⟨30/100, 18/100, 8/100, 1⟩
  else if lx > 135/100 ∧ pos.z > 1 ∧ pos.z < 145/100 then ⟨28/100, 16/100, 6/100, 1⟩
  else if pos.z > 30/100 ∧ pos.z < 190/100 then
    let grain := sinq (pos.z * 15) * (2/100)
    ⟨55/100 + grain, 38/100 + grain, 20/100, 1⟩
  else ⟨50/100, 35/100, 18/100, 1⟩

/-- C7: a position inside the wall band `0.30 < z < 1.90` whose height
also exceeds the roof threshold `1.85` is classified as roof
`(0.32, 0.22, 0.12, 1.0)` — the roof predicate precedes the wall
predicate in the cascade — and the roof color differs from every
possible wall color (for any grain value). -/
theorem C7_roof_precedence (sinq : ℚ → ℚ) (offsetX : ℚ) (pos : Vec3)
    (h30 : 30/100 < pos.z) (h185 : 185/100 < pos.z) (h190 : pos.z < 190/100) :
    cottageColor sinq offsetX pos = ⟨32/100, 22/100, 12/100, 1⟩ ∧
    ∀ grain : ℚ, (⟨32/100, 22/100, 12/100, 1⟩ : Color)
      ≠ ⟨55/100 + grain, 38/100 + grain, 20/100, 1⟩ := by
  constructor
  · simp only [cottageColor]
    rw [if_neg, if_pos h185]
    rintro ⟨-, -, hz2⟩
    linarith
  · intro grain h
    have hb := congrArg Color.b h
    norm_num at hb

/-- C7 witness: the precedence theorem at the concrete position
`(0, 0, 1.87)`, which satisfies both the roof and the wall predicate. -/
theorem C7_witness :
    cottageColor (fun t => t) 0 ⟨0, 0, 187/100⟩ = ⟨32/100, 22/100, 12/100, 1⟩ :=
  (C7_roof_precedence (fun t => t) 0 ⟨0, 0, 187/100⟩
    (by norm_num) (by norm_num) (by norm_num)).1

/-- Head of `min()` over a nonempty rational list (`none` for the empty
list, where Python's `min([])` raises). -/
def minQ : List ℚ → Option ℚ
  | [] => none
  | x :: xs => some (xs.foldl min x)

/-- Head of `max()` over a nonempty rational list. -/
def maxQ : List ℚ → Option ℚ
  | [] => none
  | x :: xs => some (xs.foldl max x)

/-- Embeds `set_origin_bottom(obj, z_offset)` from
`generate_buildings.py`: `cx = (min(xs)+max(xs))*0.5`,
`cy = (min(ys)+max(ys))*0.5`, `min_z = min(zs)+z_offset`, then every
vertex is shifted by `(-cx, -cy, -min_z)`. -/
def setOriginBottom (verts : List Vec3) (zOffset : ℚ) : Option (List Vec3) :=
  match minQ (verts.map Vec3.x), maxQ (verts.map Vec3.x),
      minQ (verts.map Vec3.y), maxQ (verts.map Vec3.y),
      minQ (verts.map Vec3.z) with
  | some mnx, some mxx, some mny, some mxy, some mnz =>
    let cx := (mnx + mxx) * (1/2)
    let cy := (mny + mxy) * (1/2)
    let mz := mnz + zOffset
    some (verts.map (fun v => ⟨v.x - cx, v.y - cy, v.z - mz⟩))
  | _, _, _, _, _ => none

theorem foldl_min_map_sub (c : ℚ) (x : ℚ) (xs : List ℚ) :
    (xs.map (fun t => t - c)).foldl min (x - c) = xs.foldl min x - c := by
  induction xs generalizing x with
  | nil => rfl
  | cons y ys ih =>
    simp only [List.map_cons, List.foldl_cons]
    rw [min_sub_sub_right, ih]

theorem foldl_max_map_sub (c : ℚ) (x : ℚ) (xs : List ℚ) :
    (xs.map (fun t => t - c)).foldl max (x - c) = xs.foldl max x - c := by
  induction xs generalizing x with
  | nil => rfl
  | cons y ys ih =>
    simp only [List.map_cons, List.foldl_cons]
    rw [max_sub_sub_right, ih]

/-- C8 (counterexample): the claim reads the nonzero-offset case as
"the lowest vertex sits at the caller-supplied offset", but the code
computes `min_z = min(zs) + z_offset` and subtracts it, leaving the
lowest vertex at `-z_offset`: for the one-vertex mesh `[(0,0,0)]` with
`z_offset = 1` the result is `[(0,0,-1)]`, not `[(0,0,1)]`. -/
theorem C8_counterexample :
    setOriginBottom [⟨0, 0, 0⟩] 1 = some [⟨0, 0, -1⟩] ∧
    ¬ setOriginBottom [⟨0, 0, 0⟩] 1 = some [⟨0, 0, 1⟩] := by
  constructor
  · norm_num [setOriginBottom, minQ, maxQ]
  · norm_num [setOriginBottom, minQ, maxQ]

/-- C8 (amended): for every nonempty mesh and every `z_offset`, after
`set_origin_bottom` the midpoints of the X and Y extents are `0` and
the lowest vertex Z coordinate is `-z_offset` (so `0` exactly when the
offset is `0`). -/
theorem C8_origin_bottom_amended (verts : List Vec3) (zOffset : ℚ)
    (hne : verts ≠ []) :
    ∃ out : List Vec3, setOriginBottom verts zOffset = some out ∧
      (∃ mn mx : ℚ, minQ (out.map Vec3.x) = some mn ∧ maxQ (out.map Vec3.x) = some mx ∧
        (mn + mx) * (1/2) = 0) ∧
      (∃ mn mx : ℚ, minQ (out.map Vec3.y) = some mn ∧ maxQ (out.map Vec3.y) = some mx ∧
        (mn + mx) * (1/2) = 0) ∧
      minQ (out.map Vec3.z) = some (-zOffset) := by
  match verts, hne with
  | v :: vs, _ =>
    set mnx := (vs.map Vec3.x).foldl min v.x with hmnx
    set mxx := (vs.map Vec3.x).foldl max v.x with hmxx
    set mny := (vs.map Vec3.y).foldl min v.y with hmny
    set mxy := (vs.map Vec3.y).foldl max v.y with hmxy
    set mnz := (vs.map Vec3.z).foldl min v.z with hmnz
    set cx := (mnx + mxx) * (1/2) with hcx
    set cy := (mny + mxy) * (1/2) with hcy
    set mz := mnz + zOffset with hmz
    have hrun : setOriginBottom (v :: vs) zOffset
        = some ((v :: vs).map (fun w => ⟨w.x - cx, w.y - cy, w.z - mz⟩)) := by
      simp only [setOriginBottom, List.map_cons, minQ, maxQ]
    refine ⟨_, hrun, ?_, ?_, ?_⟩
    · refine ⟨mnx - cx, mxx - cx, ?_, ?_, by rw [hcx]; ring⟩
      · simp only [List.map_cons, List.map_map, minQ]
        rw [show (Vec3.x ∘ fun w : Vec3 => (⟨w.x - cx, w.y - cy, w.z - mz⟩ : Vec3))
            = (fun t => t - cx) ∘ Vec3.x from rfl]
        rw [← List.map_map, foldl_min_map_sub]
      · simp only [List.map_cons, List.map_map, maxQ]
        rw [show (Vec3.x ∘ fun w : Vec3 => (⟨w.x - cx, w.y - cy, w.z - mz⟩ : Vec3))
            = (fun t => t - cx) ∘ Vec3.x from rfl]
        rw [← List.map_map, foldl_max_map_sub]
    · refine ⟨mny - cy, mxy - cy, ?_, ?_, by rw [hcy]; ring⟩
      · simp only [List.map_cons, List.map_map, minQ]
        rw [show (Vec3.y ∘ fun w : Vec3 => (⟨w.x - cx, w.y - cy, w.z - mz⟩ : Vec3))
            = (fun t => t - cy) ∘ Vec3.y from rfl]
        rw [← List.map_map, foldl_min_map_sub]
      · simp only [List.map_cons, List.map_map, maxQ]
        rw [show (Vec3.y ∘ fun w : Vec3 => (⟨w.x - cx, w.y - cy, w.z - mz⟩ : Vec3))
            = (fun t => t - cy) ∘ Vec3.y from rfl]
        rw [← List.map_map, foldl_max_map_sub]
    · simp only [List.map_cons, List.map_map, minQ]
      rw [show (Vec3.z ∘ fun w : Vec3 => (⟨w.x - cx, w.y - cy, w.z - mz⟩ : Vec3))
          = (fun t => t - mz) ∘ Vec3.z from rfl]
      rw [← List.map_map, foldl_min_map_sub]
      rw [hmz]
      norm_num

/-- C8 witness: the amended theorem at a concrete two-vertex mesh with
offset `0`. -/
theorem C8_witness :
    ∃ out : List Vec3, setOriginBottom [⟨1, 2, 3⟩, ⟨5, 4, 7⟩] 0 = some out ∧
      (∃ mn mx : ℚ, minQ (out.map Vec3.x) = some mn ∧ maxQ (out.map Vec3.x) = some mx ∧
        (mn + mx) * (1/2) = 0) ∧
      (∃ mn mx : ℚ, minQ (out.map Vec3.y) = some mn ∧ maxQ (out.map Vec3.y) = some mx ∧
        (mn + mx) * (1/2) = 0) ∧
      minQ (out.map Vec3.z) = some (-0) :=
  C8_origin_bottom_amended [⟨1, 2, 3⟩, ⟨5, 4, 7⟩] 0 (by decide)

/-- A scene object as far as `add_part` observes and mutates it: name,
the primitive it was instantiated from, its location, scale and
(optional) Euler rotation. -/
structure BlenderObj where
  name : String
  prim : String
  loc : Vec3
  scl : Vec3
  rot : Option Vec3
deriving DecidableEq, Repr

/-- The if/elif chain of `add_part` recognizes exactly these kinds. -/
def primSupported (prim : String) : Bool :=
  prim == "cube" || prim == "cylinder" || prim == "uv_sphere"
    || prim == "cone" || prim == "torus"

/-- Embeds `add_part(parts, name, prim, loc, scl, rot)` from
`generate_buildings.py` together with the ambient
`bpy.context.active_object` state: a recognized kind instantiates a new
primitive (which becomes the active object); the if/elif chain has no
else branch, so an unrecognized kind leaves the previously active
object in place, and the subsequent `obj = bpy.context.active_object`
renames/rescales/rotates that object and appends it to `parts`.  Only
when no object is active at all does the attribute access on `None`
raise. -/
def addPart (active : Option BlenderObj) (parts : List BlenderObj)
    (name prim : String) (loc scl : Vec3) (rot : Option Vec3) :
    Except String (List BlenderObj × Option BlenderObj) :=
  let activeAfter := if primSupported prim
    then some ⟨"", prim, loc, ⟨1, 1, 1⟩, none⟩
    else active
  match activeAfter with
  | none => Except.error "AttributeError"
  | some obj =>
    let renamed : BlenderObj :=
      ⟨name, obj.prim, obj.loc, scl, if rot.isSome then rot else obj.rot⟩
    Except.ok (parts ++ [renamed], some renamed)

/-- C9: invoking `add_part` with the unrecognized kind `"pyramid"`
while an object from an earlier call is still active does NOT fail: it
completes normally, renaming and rescaling the previously active object
and appending it to the parts list — contradicting the spec's "fatal
configuration error". -/
theorem C9_unknown_prim_completes :
    primSupported "pyramid" = false ∧
    addPart (some ⟨"CO_Door", "cube", ⟨0, 0, 0⟩, ⟨1, 1, 1⟩, none⟩) []
        "X" "pyramid" ⟨0, 0, 0⟩ ⟨2, 2, 2⟩ none
      = Except.ok ([⟨"X", "cube", ⟨0, 0, 0⟩, ⟨2, 2, 2⟩, none⟩],
          some ⟨"X", "cube", ⟨0, 0, 0⟩, ⟨2, 2, 2⟩, none⟩) :=
  ⟨rfl, rfl⟩

end RPG
